import Mathlib

/-!
Shallow embedding of the fetch-friends decorator library (src/index.js /
cjs/index.cjs) together with the relevant behaviour of its bundled ramda
collaborators (`mergeDeepLeft`, `mergeWithKey`, `compose`, `curry`).

JS option values are modelled by `Value`; plain objects are ordered
association lists, mirroring JS insertion order. Asynchronous, fallible
computations with observable side effects are modelled by the monad `M`,
a writer of event traces over `Except`.
-/

namespace FetchFriends

/-- JS values as they flow through the option-merging code: plain objects
are the only values `mergeDeepLeft` recurses into (ramda's `_isObject`);
arrays, strings, numbers, booleans, null and abort signals are all
"left wins" scalars. An `AbortSignal` is opaque to the merge and is
modelled as `signal ms` (the timeout that created it). -/
inductive Value where
  | str (s : String)
  | num (n : Int)
  | bool (b : Bool)
  | null
  | arr (xs : List Value)
  | obj (fields : List (String × Value))
  | signal (ms : Nat)

/-- A JS plain object: ordered association list of own enumerable keys. -/
abbrev Obj := List (String × Value)

/-- Property access `o[k]`: the first binding of key `k` (JS objects have
unique keys, so first = only). -/
def lookup : Obj → String → Option Value
  | [], _ => none
  | (k', v) :: rest, k => if k' = k then some v else lookup rest k

/-- ramda's `_isObject` test: `true` exactly for plain objects. -/
def isObj : Value → Bool
  | .obj _ => true
  | _ => false

/-- The second loop of ramda's `mergeWithKey`: the entries of the right
object whose key is absent from the left object, in right-object order. -/
def keepRight (l r : Obj) : Obj :=
  r.filter fun kv => (lookup l kv.1).isNone

mutual

/-- ramda `mergeDeepLeft` on values: if both sides are plain objects they
are merged recursively, otherwise the left value wins. -/
def mergeVal : Value → Value → Value
  | .obj l, .obj r => .obj (mergeLeft l r ++ keepRight l r)
  | l, _ => l
termination_by v _ => sizeOf v
decreasing_by all_goals simp_wf

/-- The first loop of ramda's `mergeWithKey` specialised to
`mergeDeepLeft`: every entry of the left object, its value merged with
the right object's value at the same key when one exists. -/
def mergeLeft : Obj → Obj → Obj
  | [], _ => []
  | (k, v) :: rest, r =>
    (k, match lookup r k with
        | some rv => mergeVal v rv
        | none => v) :: mergeLeft rest r
termination_by l _ => sizeOf l
decreasing_by
  all_goals simp_wf
  all_goals omega

end

/-- ramda `mergeDeepLeft` restricted to two plain objects (the shape in
which `options` always calls it): left keys first (merged), then the
right-only keys. -/
def mergeObj (l r : Obj) : Obj :=
  mergeLeft l r ++ keepRight l r

/-! ## The effect monad

A JS promise chain is modelled as a value of `M α`: the ordered trace of
observable side effects it performed, paired with either its resolution
value or the rejection it propagated. -/

/-- Observable side effects of one decorated-fetch invocation: a patch
function being invoked (tagged with the identity `id` of the patch and
the accumulated options it received), or the wrapped function being
invoked with its final `(url, opts)` arguments. -/
inductive Event where
  | patchCall (id : Nat) (opts : List (String × Value))
  | fnCall (url : String) (opts : List (String × Value))

/-- `true` exactly on patch-invocation events. -/
def isPatchEvent : Event → Bool
  | .patchCall _ _ => true
  | _ => false

/-- `true` exactly on wrapped-function-invocation events. -/
def isFnEvent : Event → Bool
  | .fnCall _ _ => true
  | _ => false

/-- An async computation: its event trace and its outcome. A rejection
carries the error message and cuts the rest of the chain short. -/
def M (α : Type) : Type := List Event × Except String α

/-- A promise that resolves to `a` with no side effects. -/
def mpure (a : α) : M α := ([], Except.ok a)

/-- `x.then(f)`: the effects of `x` happen first; `f` runs only when `x`
resolved, and a rejection of `x` propagates unchanged. -/
def mbind (x : M α) (f : α → M β) : M β :=
  match x with
  | (evs, Except.error e) => (evs, Except.error e)
  | (evs, Except.ok a) =>
    let y := f a
    (evs ++ y.1, y.2)

/-! ## Decorators -/

/-- The common signature `(url, opts) => Promise<ρ>` shared by the base
function and every decorated function. At the JS call site `opts` is
optional with default `{}`; callers of the model pass `[]` explicitly. -/
def Fetch (ρ : Type) : Type := String → Obj → M ρ

/-- A decorator `fetch => (url, opts) => Promise<ρ>`. -/
def Decorator (ρ : Type) : Type := Fetch ρ → Fetch ρ

/-- The first argument of `options`: either a plain options object, or a
(possibly async, possibly effectful, possibly failing) function of the
currently accumulated options — the two cases the source distinguishes
with `is(Function, decorate)`. -/
inductive Patch where
  | lit (o : Obj)
  | fn (f : Obj → M Obj)

/-- `is(Function, decorate) ? await decorate(opts) : decorate`. -/
def resolvePatch : Patch → Obj → M Obj
  | .lit o, _ => mpure o
  | .fn f, opts => f opts

/-- `options(decorate, fetch)`: resolve the patch against the incoming
`opts`, deep-merge `opts` over it (caller on the left), and forward
`(url, merged)` to the wrapped function. Mirrors
`pipe(async (url, opts = \x7b\x7d) => [url, mergeDeepLeft(opts, ...)],
andThen(apply(fetch)))`. -/
def options (p : Patch) (fetch : Fetch ρ) : Fetch ρ :=
  fun url opts =>
    mbind (resolvePatch p opts) fun dec => fetch url (mergeObj opts dec)

/-- The second argument of `option`: a plain value or a zero-argument
(possibly async) function producing one. -/
inductive OptValue where
  | lit (v : Value)
  | fn (f : Unit → M Value)

/-- `is(Function, value) ? await value() : value`. -/
def resolveOptValue : OptValue → M Value
  | .lit v => mpure v
  | .fn f => f ()

/-- `option(key, value, fetch)`: delegates to `options` with the patch
function `async () => (\x7b [key]: is(Function, value) ? await value() :
value \x7d)`, which ignores the accumulated options. -/
def option (key : String) (v : OptValue) (fetch : Fetch ρ) : Fetch ρ :=
  options (Patch.fn fun _ => mbind (resolveOptValue v) fun x => mpure [(key, x)]) fetch

/-- `method = option('method')`. -/
def method (v : OptValue) (fetch : Fetch ρ) : Fetch ρ := option "method" v fetch

/-- `headers = option('headers')`. -/
def headers (v : OptValue) (fetch : Fetch ρ) : Fetch ρ := option "headers" v fetch

/-- `abort(ms)`: a fresh `AbortSignal` wired to fire after `ms`
milliseconds, opaque to the merge; modelled as `Value.signal ms`. -/
def abort (ms : Nat) : Value := Value.signal ms

/-- `timeout(ms, fetch) = option('signal', () => abort(ms), fetch)`. -/
def timeout (ms : Nat) (fetch : Fetch ρ) : Fetch ρ :=
  option "signal" (OptValue.fn fun _ => mpure (abort ms)) fetch

/-! ## JSON serialization (`JSON.stringify`) -/

/-- Lower-case hex digit. -/
def hexDigit (n : Nat) : Char :=
  "0123456789abcdef".toList.getD n '0'

/-- `JSON.stringify` escaping of one string character. -/
def jsonEscapeChar (c : Char) : String :=
  if c = '"' then "\\\""
  else if c = '\\' then "\\\\"
  else if c = '\n' then "\\n"
  else if c = '\r' then "\\r"
  else if c = '\t' then "\\t"
  else if c.toNat = 8 then "\\b"
  else if c.toNat = 12 then "\\f"
  else if c.toNat < 32 then
    String.mk ['\\', 'u', '0', '0', hexDigit (c.toNat / 16), hexDigit (c.toNat % 16)]
  else String.singleton c

/-- `JSON.stringify` escaping of a string body. -/
def jsonEscape (s : String) : String :=
  String.join (s.toList.map jsonEscapeChar)

mutual

/-- `JSON.stringify` on the value model. An `AbortSignal` has no own
enumerable properties, so it serializes as the empty object. -/
def jsonStringify : Value → String
  | .str s => "\"" ++ jsonEscape s ++ "\""
  | .num n => toString n
  | .bool b => if b then "true" else "false"
  | .null => "null"
  | .arr xs => "[" ++ jsonArray xs ++ "]"
  | .obj kvs => "\x7b" ++ jsonMembers kvs ++ "\x7d"
  | .signal _ => "\x7b\x7d"
termination_by v => sizeOf v
decreasing_by all_goals simp_wf

/-- Comma-separated serialization of array elements. -/
def jsonArray : List Value → String
  | [] => ""
  | [x] => jsonStringify x
  | x :: y :: xs => jsonStringify x ++ "," ++ jsonArray (y :: xs)
termination_by xs => sizeOf xs
decreasing_by
  all_goals simp_wf
  all_goals omega

/-- Comma-separated serialization of object members. -/
def jsonMembers : List (String × Value) → String
  | [] => ""
  | [(k, v)] => "\"" ++ jsonEscape k ++ "\":" ++ jsonStringify v
  | (k, v) :: y :: xs =>
    "\"" ++ jsonEscape k ++ "\":" ++ jsonStringify v ++ "," ++ jsonMembers (y :: xs)
termination_by xs => sizeOf xs
decreasing_by
  all_goals simp_wf
  all_goals omega

end

/-- `body(fetch)(json, url, opts)`: forces `method: 'POST'`, the JSON
content-type header and the serialized payload into an options patch,
then delegates to `options` and calls the result with `(url, opts)`. -/
def body (fetch : Fetch ρ) (j : Value) (url : String) (opts : Obj) : M ρ :=
  options
    (Patch.lit
      [("method", Value.str "POST"),
       ("headers", Value.obj [("Content-Type", Value.str "application/json")]),
       ("body", Value.str (jsonStringify j))])
    fetch url opts

/-! ## The composer (`decorate`) -/

/-- `compose(...decorators)(fetch)` for a non-empty list:
`d1(d2(...(dn(fetch))))` — the last decorator is applied to the base
function first, the first-listed decorator ends up outermost. -/
def composeAll (ds : List (Decorator ρ)) (fetch : Fetch ρ) : Fetch ρ :=
  ds.foldr (fun d acc => d acc) fetch

/-- The uncurried body `(fetch, decorators) => compose(...decorators)(fetch)`.
ramda's `compose` throws `'compose requires at least one argument'` when
the spread decorator list is empty, so construction is fallible. -/
def decorateU (p : Fetch ρ × List (Decorator ρ)) : Except String (Fetch ρ) :=
  match p.2 with
  | [] => Except.error "compose requires at least one argument"
  | _ :: _ => Except.ok (composeAll p.2 p.1)

/-- ramda `curry` on a binary function: the essential law is that
supplying the two arguments one at a time (`f(a)(b)`) and together
(`f(a, b)`) both reach the uncurried body. -/
def curry2 (f : α × β → γ) (a : α) (b : β) : γ := f (a, b)

/-- `decorate = curry((fetch, decorators) => compose(...decorators)(fetch))`. -/
def decorate (fetch : Fetch ρ) (ds : List (Decorator ρ)) : Except String (Fetch ρ) :=
  curry2 decorateU fetch ds

/-! ## Auth and response helpers -/

/-- UTF-8 encoding of one character (what `Buffer.from(string)` does
byte-wise). -/
def utf8Bytes (c : Char) : List Nat :=
  let n := c.toNat
  if n < 128 then [n]
  else if n < 2048 then
    [192 + n / 64, 128 + n % 64]
  else if n < 65536 then
    [224 + n / 4096, 128 + n / 64 % 64, 128 + n % 64]
  else
    [240 + n / 262144, 128 + n / 4096 % 64, 128 + n / 64 % 64, 128 + n % 64]

/-- The bytes of a string under UTF-8. -/
def strBytes (s : String) : List Nat :=
  (s.toList.map utf8Bytes).foldr (· ++ ·) []

/-- The standard base64 alphabet. -/
def b64Char (n : Nat) : Char :=
  "ABCDEFGHIJKLMNOPQRSTUVWXYZabcdefghijklmnopqrstuvwxyz0123456789+/".toList.getD n 'A'

/-- Base64 with `=` padding over a byte list
(`Buffer.toString('base64')`). -/
def base64Encode : List Nat → String
  | [] => ""
  | [a] => String.mk [b64Char (a / 4), b64Char (a % 4 * 16), '=', '=']
  | [a, b] => String.mk [b64Char (a / 4), b64Char (a % 4 * 16 + b / 16), b64Char (b % 16 * 4), '=']
  | a :: b :: c :: rest =>
    String.mk [b64Char (a / 4), b64Char (a % 4 * 16 + b / 16),
               b64Char (b % 16 * 4 + c / 64), b64Char (c % 64)]
      ++ base64Encode rest

/-- Base64 of a string's UTF-8 bytes:
`Buffer.from(s).toString('base64')`. -/
def base64 (s : String) : String := base64Encode (strBytes s)

/-- The uncurried body of `basicAuthHeader`:
`(username, password) => (\x7b Authorization: Basic <base64(u:p)> \x7d)`. -/
def basicAuthHeaderU (p : String × String) : Obj :=
  [("Authorization", Value.str ("Basic " ++ base64 (p.1 ++ ":" ++ p.2)))]

/-- `basicAuthHeader = curry((username, password) => ...)`. -/
def basicAuthHeader (username password : String) : Obj :=
  curry2 basicAuthHeaderU username password

/-- `bearerAuthHeader(token)`. -/
def bearerAuthHeader (token : String) : Obj :=
  [("Authorization", Value.str ("Bearer " ++ token))]

/-- The slice of a `Response` this library looks at: the success flag
and the status text. -/
structure Response where
  ok : Bool
  statusText : String

/-- `rejectIfNotOkay = res => res.ok ? res : raise(new Error(res.statusText))`:
the thrown `Error` is modelled by `Except.error` carrying its message. -/
def rejectIfNotOkay (res : Response) : Except String Response :=
  if res.ok then Except.ok res else Except.error res.statusText

/-! ## Heap model of the merge

The pure model above cannot even express mutation, so the claim that
decorators never mutate the caller's `opts` is restated over an explicit
heap. A JS plain object lives at an address; its fields hold primitives
(anything `mergeDeepLeft` treats as a scalar) or references to other
objects. ramda's `mergeWithKey` writes only into `var result = \x7b\x7d`,
a freshly allocated object, so in this model a merge may only append new
objects to the heap. -/

/-- A field value on the heap: a scalar, or a reference to a plain
object stored at address `a`. -/
inductive HVal where
  | prim (s : String)
  | ref (a : Nat)
deriving DecidableEq

/-- A heap-resident plain object. -/
abbrev HObj := List (String × HVal)

/-- The heap: object `a` lives at index `a`; allocation appends. -/
abbrev Heap := List HObj

/-- Property access on a heap object. -/
def hlookup : HObj → String → Option HVal
  | [], _ => none
  | (k', v) :: rest, k => if k' = k then some v else hlookup rest k

/-- The second `mergeWithKey` loop on the heap: right-object entries
whose key the left object lacks. -/
def hkeep (l r : HObj) : HObj :=
  r.filter fun kv => (hlookup l kv.1).isNone

mutual

/-- `mergeDeepLeft` over the heap: read both objects, merge their
entries (recursively allocating merged sub-objects), then allocate the
result object. `fuel` bounds the recursion depth (JS would diverge on a
cyclic object graph); `none` means fuel ran out or an address dangled. -/
def hMergeObjs (fuel : Nat) (h : Heap) (la ra : Nat) : Option (Heap × Nat) :=
  match fuel with
  | 0 => none
  | fuel + 1 =>
    match h.get? la, h.get? ra with
    | some l, some r =>
      match hMergeEntries fuel h l r with
      | some (h1, es) => some (h1 ++ [es ++ hkeep l r], h1.length)
      | none => none
    | _, _ => none
termination_by (fuel, 0, 0)

/-- The first `mergeWithKey` loop on the heap: for each left entry, pair
its key with the recursively merged value when both sides hold object
references, and with the left value otherwise. Threads the heap through
the sub-merges and returns the entries of the result object. -/
def hMergeEntries (fuel : Nat) (h : Heap) (l r : HObj) : Option (Heap × HObj) :=
  match l with
  | [] => some (h, [])
  | (k, v) :: rest =>
    match hlookup r k, v with
    | some (HVal.ref rb), HVal.ref a =>
      match hMergeObjs fuel h a rb with
      | some (h1, na) =>
        match hMergeEntries fuel h1 rest r with
        | some (h2, es) => some (h2, (k, HVal.ref na) :: es)
        | none => none
      | none => none
    | _, _ =>
      match hMergeEntries fuel h rest r with
      | some (h1, es) => some (h1, (k, v) :: es)
      | none => none
termination_by (fuel, 1, l.length)

end

/-- The merge a decorator built on `options` (hence also `option`,
`method`, `headers`, `timeout` and `body`) performs on one invocation,
seen at the heap level: the caller's options object at `optsAddr` merged
(caller on the left) with the resolved patch object at `patchAddr`. -/
def optionsMergeH (fuel : Nat) (h : Heap) (optsAddr patchAddr : Nat) : Option (Heap × Nat) :=
  hMergeObjs fuel h optsAddr patchAddr

/-- `h'` is `h` with zero or more freshly allocated objects appended. -/
def heapExtends (h h' : Heap) : Prop := ∃ t, h' = h ++ t


/-! ## Instrumented fixtures -/

/-- A base function that records its invocation and resolves to its url. -/
def idFetch : Fetch Value :=
  fun url opts => ([Event.fnCall url opts], Except.ok (Value.str url))

/-- A base function that records its invocation and resolves to `r`. -/
def logFetch (r : Value) : Fetch Value :=
  fun url opts => ([Event.fnCall url opts], Except.ok r)

/-- A patch function that records being invoked (under identity `i`)
with the options it received, then resolves to `o`. -/
def logPatch (i : Nat) (o : Obj) : Patch :=
  Patch.fn fun os => ([Event.patchCall i os], Except.ok o)

/-- Caller options for the concrete merge scenarios. -/
def demoA : Obj :=
  [("method", Value.str "GET"), ("headers", Value.obj [("Accept", Value.str "json")])]

/-- Decorator patch options for the concrete merge scenarios. -/
def demoB : Obj :=
  [("method", Value.str "POST"),
   ("headers", Value.obj [("Content-Type", Value.str "application/json")]),
   ("body", Value.str "x")]

/-- A two-object heap for the C7 witness: the caller's options at
address 0, the decorator patch at address 1. -/
def demoHeap : Heap :=
  [[("method", HVal.prim "GET")],
   [("method", HVal.prim "POST"), ("keepalive", HVal.prim "true")]]

/-! ## The frame property of the heap-level merge -/

theorem heapExtends_refl (h : Heap) : heapExtends h h := ⟨[], by simp⟩

theorem heapExtends_trans {h h' h'' : Heap}
    (h1 : heapExtends h h') (h2 : heapExtends h' h'') : heapExtends h h'' := by
  obtain ⟨t1, rfl⟩ := h1
  obtain ⟨t2, rfl⟩ := h2
  exact ⟨t1 ++ t2, by rw [List.append_assoc]⟩

theorem heapExtends_alloc (h : Heap) (o : HObj) : heapExtends h (h ++ [o]) := ⟨[o], rfl⟩

theorem heapExtends_length {h h' : Heap} (he : heapExtends h h') : h.length ≤ h'.length := by
  obtain ⟨t, rfl⟩ := he
  simp

theorem heapExtends_get {h h' : Heap} (he : heapExtends h h') (a : Nat) (ha : a < h.length) :
    h'[a]? = h[a]? := by
  obtain ⟨t, rfl⟩ := he
  exact List.getElem?_append_left ha

/-- Merging the entries of two objects only ever allocates: the incoming
heap is a prefix of the outgoing one. -/
theorem hMergeEntries_extends (fuel : Nat)
    (IH : ∀ h la ra res, hMergeObjs fuel h la ra = some res → heapExtends h res.1) :
    ∀ (l : HObj) (h : Heap) (r : HObj) (res : Heap × HObj),
      hMergeEntries fuel h l r = some res → heapExtends h res.1 := by
  intro l
  induction l with
  | nil =>
    intro h r res he
    simp only [hMergeEntries] at he
    cases he
    exact heapExtends_refl h
  | cons kv rest ih =>
    obtain ⟨k, v⟩ := kv
    intro h r res he
    rw [hMergeEntries.eq_def] at he
    simp only at he
    split at he
    · rename_i rb a heqv
      split at he
      · rename_i h1 na heq1
        split at he
        · rename_i h2 es heq2
          cases he
          exact heapExtends_trans (IH h a rb (h1, na) heq1) (ih h1 r (h2, es) heq2)
        · cases he
      · cases he
    · split at he
      · rename_i h1 es heq1
        cases he
        exact ih h r (h1, es) heq1
      · cases he

/-- The heap-level `mergeDeepLeft` only allocates, and its result object
is freshly allocated (its address is past the end of the input heap). -/
theorem hMergeObjs_frame :
    ∀ (fuel : Nat) (h : Heap) (la ra : Nat) (res : Heap × Nat),
      hMergeObjs fuel h la ra = some res →
      heapExtends h res.1 ∧ h.length ≤ res.2 := by
  intro fuel
  induction fuel with
  | zero =>
    intro h la ra res he
    simp [hMergeObjs] at he
  | succ fuel ih =>
    intro h la ra res he
    have ihE : ∀ h la ra res, hMergeObjs fuel h la ra = some res → heapExtends h res.1 :=
      fun h la ra res hm => (ih h la ra res hm).1
    rw [hMergeObjs.eq_def] at he
    simp only at he
    split at he
    · rename_i l r hgl hgr
      split at he
      · rename_i h1 es heq1
        cases he
        have hx := hMergeEntries_extends fuel ihE l h r (h1, es) heq1
        exact ⟨heapExtends_trans hx (heapExtends_alloc h1 _), heapExtends_length hx⟩
      · cases he
    · cases he

/-! ## Lemmas about `lookup` and the deep merge -/

theorem lookup_append_some {xs ys : Obj} {k : String} {v : Value}
    (hx : lookup xs k = some v) : lookup (xs ++ ys) k = some v := by
  induction xs with
  | nil => simp [lookup] at hx
  | cons kv rest ih =>
    obtain ⟨k', w⟩ := kv
    simp only [List.cons_append, lookup] at hx ⊢
    by_cases hk : k' = k
    · simpa [hk] using hx
    · simp only [hk, if_false] at hx ⊢
      exact ih hx

theorem lookup_append_none {xs ys : Obj} {k : String}
    (hx : lookup xs k = none) : lookup (xs ++ ys) k = lookup ys k := by
  induction xs with
  | nil => rfl
  | cons kv rest ih =>
    obtain ⟨k', w⟩ := kv
    simp only [List.cons_append, lookup] at hx ⊢
    by_cases hk : k' = k
    · simp [hk] at hx
    · simp only [hk, if_false] at hx ⊢
      exact ih hx

theorem lookup_mergeLeft_none {l r : Obj} {k : String}
    (hl : lookup l k = none) : lookup (mergeLeft l r) k = none := by
  induction l with
  | nil => simp [mergeLeft, lookup]
  | cons kv rest ih =>
    obtain ⟨k', w⟩ := kv
    simp only [lookup, mergeLeft] at hl ⊢
    by_cases hk : k' = k
    · simp [hk] at hl
    · simp only [hk, if_false] at hl ⊢
      exact ih hl

theorem lookup_mergeLeft_some {l r : Obj} {k : String} {v : Value}
    (hl : lookup l k = some v) :
    lookup (mergeLeft l r) k
      = some (match lookup r k with
              | some rv => mergeVal v rv
              | none => v) := by
  induction l with
  | nil => simp [lookup] at hl
  | cons kv rest ih =>
    obtain ⟨k', w⟩ := kv
    simp only [lookup, mergeLeft] at hl ⊢
    by_cases hk : k' = k
    · subst hk
      simp only [if_pos rfl] at hl ⊢
      cases hl
      rfl
    · simp only [hk, if_false] at hl ⊢
      exact ih hl

theorem lookup_keepRight {l r : Obj} {k : String}
    (hl : lookup l k = none) : lookup (keepRight l r) k = lookup r k := by
  induction r with
  | nil => rfl
  | cons kv rest ih =>
    obtain ⟨k', w⟩ := kv
    simp only [keepRight, List.filter] at ih ⊢
    by_cases hk : k' = k
    · subst hk
      simp [lookup, hl, ih]
    · cases hkeep : (lookup l k').isNone
      · simp only [hkeep, lookup, hk, if_false]
        exact ih
      · simp only [hkeep, lookup, hk, if_false]
        exact ih

theorem mergeVal_scalar_left {v w : Value}
    (h : isObj v = false ∨ isObj w = false) : mergeVal v w = v := by
  cases v <;> cases w <;> simp only [mergeVal] <;> simp [isObj] at h

/-! ## Claim theorems -/

/-- **C1.** The function returned by `options(patch, fn)` passes `fn`
exactly the deep merge of the caller options `A` over the resolved patch
`B` (for a literal patch and for a patch function resolving to `B`
alike), and that merge is caller-priority: on a key present in both
sides where at least one value is not a plain object the caller's value
survives; a key present only in `B` passes through; and when both
values are plain objects they are merged recursively by the same
operator, so the caller-priority rule applies at every depth. -/
theorem claim1_options_merge_caller_wins (A B : Obj) (fetch : Fetch Value) (url : String) :
    options (Patch.lit B) fetch url A = fetch url (mergeObj A B)
    ∧ (∀ (f : Obj → M Obj) (evs : List Event), f A = (evs, Except.ok B) →
        options (Patch.fn f) fetch url A
          = (evs ++ (fetch url (mergeObj A B)).1, (fetch url (mergeObj A B)).2))
    ∧ (∀ k va vb, lookup A k = some va → lookup B k = some vb →
        (isObj va = false ∨ isObj vb = false) →
        lookup (mergeObj A B) k = some va)
    ∧ (∀ k, lookup A k = none → lookup (mergeObj A B) k = lookup B k)
    ∧ (∀ k la lb, lookup A k = some (Value.obj la) → lookup B k = some (Value.obj lb) →
        lookup (mergeObj A B) k = some (Value.obj (mergeObj la lb))) := by
  refine ⟨rfl, ?_, ?_, ?_, ?_⟩
  · intro f evs hf
    simp only [options, resolvePatch]
    rw [hf]
    rfl
  · intro k va vb ha hb hscalar
    have h1 := lookup_mergeLeft_some (r := B) ha
    rw [hb] at h1
    simp only at h1
    rw [mergeVal_scalar_left hscalar] at h1
    exact lookup_append_some h1
  · intro k ha
    have h1 := lookup_mergeLeft_none (r := B) ha
    rw [mergeObj, lookup_append_none h1]
    exact lookup_keepRight ha
  · intro k la lb ha hb
    have h1 := lookup_mergeLeft_some (r := B) ha
    rw [hb] at h1
    simp only [mergeVal] at h1
    exact lookup_append_some h1

/-- Witness for C1: on `demoA`/`demoB`, the caller's scalar `method`
wins, the patch-only `body` passes through, and the two `headers`
objects merge recursively. -/
theorem claim1_options_merge_caller_wins_witness :
    lookup (mergeObj demoA demoB) "method" = some (Value.str "GET")
    ∧ lookup (mergeObj demoA demoB) "body" = some (Value.str "x")
    ∧ lookup (mergeObj demoA demoB) "headers"
        = some (Value.obj (mergeObj [("Accept", Value.str "json")]
            [("Content-Type", Value.str "application/json")]))
    ∧ options (Patch.fn fun _ => ([], Except.ok demoB)) (fun _ _ => mpure Value.null) "url" demoA
        = ([], Except.ok Value.null) := by
  have hc := claim1_options_merge_caller_wins demoA demoB (fun _ _ => mpure Value.null) "url"
  refine ⟨hc.2.2.1 "method" (Value.str "GET") (Value.str "POST") rfl rfl (Or.inl rfl),
          ?_,
          hc.2.2.2.2 "headers" [("Accept", Value.str "json")]
            [("Content-Type", Value.str "application/json")] rfl rfl,
          hc.2.1 (fun _ => ([], Except.ok demoB)) [] rfl⟩
  have h := hc.2.2.2.1 "body" rfl
  rw [h]
  rfl

/-- **C2.** `decorate` wraps the base function with the first-listed
decorator outermost (the last-listed is applied to the base function
first: appending a decorator to the list composes it directly onto the
base function), and at call time the first-listed decorator's patch is
resolved and merged first: two stacked `options` layers log the first
patch against the raw caller options, the second against the already
merged options, and only then the base function. -/
theorem claim2_composition_order (fetch : Fetch Value) (d : Decorator Value)
    (ds : List (Decorator Value)) :
    decorate fetch (d :: ds) = Except.ok (d (composeAll ds fetch))
    ∧ composeAll (ds ++ [d]) fetch = composeAll ds (d fetch)
    ∧ ∀ (i j : Nat) (o1 o2 : Obj) (url : String) (opts : Obj),
        composeAll [options (logPatch i o1), options (logPatch j o2)] idFetch url opts
          = ([Event.patchCall i opts,
              Event.patchCall j (mergeObj opts o1),
              Event.fnCall url (mergeObj (mergeObj opts o1) o2)],
             Except.ok (Value.str url)) := by
  refine ⟨rfl, ?_, fun i j o1 o2 url opts => rfl⟩
  simp [composeAll, List.foldr_append]

/-- **C3 counterexample.** `decorate(fn, [])` does not return a function
behaving like `fn`: it is the thrown error of ramda's `compose`, which
requires at least one argument. -/
theorem claim3_counterexample_empty_list :
    decorate idFetch ([] : List (Decorator Value))
      = Except.error "compose requires at least one argument" := rfl

/-- **C3 (amended).** For every base function, `decorate(fn, [])` throws
`'compose requires at least one argument'` at decoration time instead of
returning a function behaviorally identical to `fn`; any non-empty
decorator list constructs a decorated function. -/
theorem claim3_empty_decorator_list_throws (ρ : Type) (fetch : Fetch ρ) :
    decorate fetch ([] : List (Decorator ρ))
      = Except.error "compose requires at least one argument"
    ∧ ∀ (d : Decorator ρ) (ds : List (Decorator ρ)),
        decorate fetch (d :: ds) = Except.ok (composeAll (d :: ds) fetch) :=
  ⟨rfl, fun _ _ => rfl⟩

/-- **C4.** A function patch is invoked lazily, per invocation: one call
of the decorated function logs the patch invocation exactly once, with
the caller-supplied options as its argument, strictly before the wrapped
function's invocation; two sequential invocations log it twice. (In the
embedding `options` is a pure function, so decoration-construction
itself can perform no patch invocation at all.) -/
theorem claim4_patch_lazy_exactly_once (i : Nat) (o : Obj) (r : Value)
    (url : String) (opts : Obj) :
    options (logPatch i o) (logFetch r) url opts
      = ([Event.patchCall i opts, Event.fnCall url (mergeObj opts o)], Except.ok r)
    ∧ (options (logPatch i o) (logFetch r) url opts).1.countP isPatchEvent = 1
    ∧ (mbind (options (logPatch i o) (logFetch r) url opts)
        (fun _ => options (logPatch i o) (logFetch r) url opts)).1.countP isPatchEvent = 2 :=
  ⟨rfl, rfl, rfl⟩

/-- **C5.** `body(fn)(json, url, opts)` calls `fn` with `(url, m)` where
`m` is the caller's options deep-merged over the forced patch
`method: POST`, JSON content type, and the serialized payload; on the
spec's concrete scenario the wrapped function receives exactly the
documented merged options object. -/
theorem claim5_body_posts_json (j : Value) (url : String) (opts : Obj) (fetch : Fetch Value) :
    body fetch j url opts
      = fetch url (mergeObj opts
          [("method", Value.str "POST"),
           ("headers", Value.obj [("Content-Type", Value.str "application/json")]),
           ("body", Value.str (jsonStringify j))])
    ∧ body idFetch (Value.obj [("hello", Value.str "world")]) "123.com"
        [("headers", Value.obj [("Some-Header", Value.str "Some-Value")])]
      = ([Event.fnCall "123.com"
           [("headers", Value.obj [("Some-Header", Value.str "Some-Value"),
                                   ("Content-Type", Value.str "application/json")]),
            ("method", Value.str "POST"),
            ("body", Value.str "\x7b\"hello\":\"world\"\x7d")]],
         Except.ok (Value.str "123.com")) := by
  constructor
  · rfl
  · have hjson : jsonStringify (Value.obj [("hello", Value.str "world")])
        = "\x7b\"hello\":\"world\"\x7d" := by
      simp only [jsonStringify, jsonMembers]
      rfl
    show idFetch "123.com"
        (mergeObj [("headers", Value.obj [("Some-Header", Value.str "Some-Value")])]
          [("method", Value.str "POST"),
           ("headers", Value.obj [("Content-Type", Value.str "application/json")]),
           ("body", Value.str (jsonStringify (Value.obj [("hello", Value.str "world")])))]) = _
    rw [hjson]
    simp [idFetch, mergeObj, mergeLeft, mergeVal, keepRight, lookup]

/-- **C6.** When a patch function fails, the whole call rejects with
that failure, carrying only the effects the patch performed — the
wrapped function is never invoked, so no partially merged options ever
reach it. -/
theorem claim6_patch_failure_rejects (f : Obj → M Obj) (fetch : Fetch Value)
    (url : String) (opts : Obj) (evs : List Event) (e : String)
    (hf : f opts = (evs, Except.error e)) :
    options (Patch.fn f) fetch url opts = (evs, Except.error e)
    ∧ (options (Patch.fn f) fetch url opts).1.countP isFnEvent = evs.countP isFnEvent := by
  have h1 : options (Patch.fn f) fetch url opts = (evs, Except.error e) := by
    simp only [options, resolvePatch]
    rw [hf]
    rfl
  exact ⟨h1, by rw [h1]⟩

/-- Witness for C6: a patch that rejects with `boom` makes the decorated
call reject with `boom` and the base function is never reached. -/
theorem claim6_patch_failure_rejects_witness :
    options (Patch.fn fun _ => ([], Except.error "boom")) idFetch "123.com" []
      = (([] : List Event), Except.error "boom") :=
  (claim6_patch_failure_rejects (fun _ => ([], Except.error "boom"))
    idFetch "123.com" [] [] "boom" rfl).1

/-- **C8.** `rejectIfNotOkay` returns the response unchanged when its
`ok` flag is true and otherwise fails with an error carrying the
response's status text; with `ok` a boolean these are the only two
behaviors. -/
theorem claim8_rejectIfNotOkay_cases (res : Response) :
    (res.ok = true → rejectIfNotOkay res = Except.ok res)
    ∧ (res.ok = false → rejectIfNotOkay res = Except.error res.statusText) := by
  constructor <;> intro h <;> simp [rejectIfNotOkay, h]

/-- Witness for C8 at an ok and at a failing response. -/
theorem claim8_rejectIfNotOkay_cases_witness :
    rejectIfNotOkay ⟨true, "OK"⟩ = Except.ok ⟨true, "OK"⟩
    ∧ rejectIfNotOkay ⟨false, "Bad Request"⟩ = Except.error "Bad Request" :=
  ⟨(claim8_rejectIfNotOkay_cases ⟨true, "OK"⟩).1 rfl,
   (claim8_rejectIfNotOkay_cases ⟨false, "Bad Request"⟩).2 rfl⟩

/-- **C9.** `basicAuthHeader` is the currying of its two-argument body,
so one-at-a-time and simultaneous application agree; the body returns
the `Basic` authorization header over the base64 of `user:password`, and
on the spec's concrete example it yields exactly
`Basic ZGFuaWVsOncxbGwwd3RyZWU=`. -/
theorem claim9_basicAuthHeader (u p : String) :
    basicAuthHeader u p = basicAuthHeaderU (u, p)
    ∧ basicAuthHeaderU (u, p)
        = [("Authorization", Value.str ("Basic " ++ base64 (u ++ ":" ++ p)))]
    ∧ basicAuthHeader "daniel" "w1ll0wtree"
        = [("Authorization", Value.str "Basic ZGFuaWVsOncxbGwwd3RyZWU=")] :=
  ⟨rfl, rfl, rfl⟩

/-- **C10.** `decorate` is curried: it is defined as the currying of the
uncurried body `(fetch, decorators) => compose(...decorators)(fetch)`,
so fixing the base function first and supplying the decorator list later
produces the very same result, and when both constructions succeed the
resulting functions agree on every call. -/
theorem claim10_decorate_curried (fetch : Fetch Value) (ds : List (Decorator Value)) :
    decorate fetch ds = decorateU (fetch, ds)
    ∧ ∀ (url : String) (opts : Obj) (g g' : Fetch Value),
        decorate fetch ds = Except.ok g → decorateU (fetch, ds) = Except.ok g' →
        g url opts = g' url opts := by
  refine ⟨rfl, ?_⟩
  intro url opts g g' h1 h2
  have h3 : (Except.ok g : Except String (Fetch Value)) = Except.ok g' :=
    Eq.trans h1.symm h2
  injection h3 with h
  rw [h]

/-- Witness for C10 with the identity decorator. -/
theorem claim10_decorate_curried_witness :
    decorate idFetch [fun fetch => fetch] = decorateU (idFetch, [fun fetch => fetch])
    ∧ idFetch "123.com" [] = idFetch "123.com" [] := by
  have hc := claim10_decorate_curried idFetch [fun fetch => fetch]
  exact ⟨hc.1, hc.2 "123.com" [] idFetch idFetch rfl rfl⟩

/-- **C7.** The merge step that every decorator built on `options`
(hence `option`, `method`, `headers`, `timeout`, and `body`) performs
never mutates the caller's options: at the heap level, every object that
existed before the merge — in particular the caller's `opts` object and
everything reachable from it — holds exactly the same bindings
afterwards, and the merged mapping is a freshly allocated object. -/
theorem claim7_no_mutation (fuel : Nat) (h : Heap) (optsAddr patchAddr : Nat)
    (h' : Heap) (res : Nat)
    (hm : optionsMergeH fuel h optsAddr patchAddr = some (h', res)) :
    (∀ a, a < h.length → h'[a]? = h[a]?) ∧ h.length ≤ res := by
  have hf := hMergeObjs_frame fuel h optsAddr patchAddr (h', res) hm
  exact ⟨fun a ha => heapExtends_get hf.1 a ha, hf.2⟩

/-- Witness for C7: on `demoHeap`, the merge leaves the caller's options
object (address 0) and the patch object (address 1) untouched and puts
its result at the fresh address 2. -/
theorem claim7_no_mutation_witness :
    (demoHeap ++ [[("method", HVal.prim "GET"), ("keepalive", HVal.prim "true")]])[0]?
      = demoHeap[0]?
    ∧ (demoHeap ++ [[("method", HVal.prim "GET"), ("keepalive", HVal.prim "true")]])[1]?
      = demoHeap[1]?
    ∧ demoHeap.length ≤ 2 := by
  have hm : optionsMergeH 1 demoHeap 0 1
      = some (demoHeap ++ [[("method", HVal.prim "GET"), ("keepalive", HVal.prim "true")]], 2) := by
    simp [optionsMergeH, hMergeObjs, hMergeEntries, hkeep, hlookup, demoHeap]
  have hc := claim7_no_mutation 1 demoHeap 0 1 _ 2 hm
  exact ⟨hc.1 0 (by simp [demoHeap]), hc.1 1 (by simp [demoHeap]), hc.2⟩

end FetchFriends
